import Mathlib

/-!
Shallow embedding of the `web_resource_processor` repository
(`resourcetype.py`, `refprocessor.py`, `resource.py`, `project.py`).

Pure Python functions become Lean functions on `String`/`List Char`.
The library primitives the source calls (`urllib.parse.urlparse`,
`pathlib.PurePosixPath`, `str.strip`, `str.replace`, the `re` patterns
appearing in the source) are embedded with their CPython semantics at the
call sites the source exercises.  Effectful collaborators (the
`validators.url` predicate, the HTTP transport together with the
BeautifulSoup tag scan of the fetched body) are passed in as explicit
parameters: a validator `String → Bool` and a fetch oracle
`String → FetchOutcome` whose success case carries the HTTP status, the
response headers and the stream of scanned tags of the body.
-/

namespace WebRes

/-! ## Python string primitives -/

/-- Code points of `str.isspace` (the set `str.strip()` strips). -/
def pyIsSpace (c : Char) : Bool :=
  (0x09 ≤ c.toNat && c.toNat ≤ 0x0d) || c.toNat == 0x20 ||
  (0x1c ≤ c.toNat && c.toNat ≤ 0x1f) || c.toNat == 0x85 || c.toNat == 0xa0 ||
  c.toNat == 0x1680 || (0x2000 ≤ c.toNat && c.toNat ≤ 0x200a) ||
  c.toNat == 0x2028 || c.toNat == 0x2029 || c.toNat == 0x202f ||
  c.toNat == 0x205f || c.toNat == 0x3000

/-- Remove the trailing run of characters satisfying `f`. -/
def rstripWhile (f : Char → Bool) : List Char → List Char
  | [] => []
  | c :: rest =>
    let r := rstripWhile f rest
    if r = [] && f c then [] else c :: r

/-- Python `str.strip()`. -/
def pyStrip (s : String) : String :=
  String.mk (rstripWhile pyIsSpace (s.data.dropWhile pyIsSpace))

/-- Does `pat` occur as a contiguous run somewhere in the list? -/
def hasSub (pat : List Char) : List Char → Bool
  | [] => pat.isPrefixOf ([] : List Char)
  | c :: rest => pat.isPrefixOf (c :: rest) || hasSub pat rest

/-- Python `sub in s` (substring containment). -/
def strContains (s sub : String) : Bool :=
  hasSub sub.data s.data

/-- Python `str.startswith` / the anchored literal prefixes of the
source's `re.match` alternations. -/
def strStartsWith (s pre : String) : Bool :=
  pre.data.isPrefixOf s.data

/-- Split on a separator character, Python `str.split(sep)` semantics
(adjacent separators produce empty fields). -/
def splitOnChar (sep : Char) : List Char → List (List Char)
  | [] => [[]]
  | c :: rest =>
    if c = sep then [] :: splitOnChar sep rest
    else
      match splitOnChar sep rest with
      | [] => [[c]]
      | x :: xs => (c :: x) :: xs

/-- Python `str.lower` on the ASCII range (all that reaches it here). -/
def lowerStr (s : String) : String :=
  String.mk (s.data.map Char.toLower)

/-- Python `str.removeprefix`. -/
def pyRemovePrefix (pre s : String) : String :=
  if pre.data.isPrefixOf s.data then String.mk (s.data.drop pre.data.length) else s

/-- Rendering of an optional string inside a Python f-string
(`None` renders as `"None"`). -/
def pyStr : Option String → String
  | some s => s
  | none => "None"

/-! ## `urllib.parse.urlsplit` / `urlparse` (CPython ≥ 3.10 semantics) -/

/-- Characters `urlsplit` deletes anywhere in the input (`"\t\r\n"`). -/
def isDeletedUrlChar (c : Char) : Bool :=
  c == '\t' || c == '\r' || c == '\n'

/-- C0 controls and space, stripped from the front only by `urlsplit`
(trailing ones are deliberately preserved). -/
def isC0OrSpace (c : Char) : Bool :=
  c.toNat ≤ 0x20

/-- The preprocessing `urlsplit` applies to its argument: lstrip of C0
controls and space, then deletion of tab, CR and LF. -/
def cleanUrl (l : List Char) : List Char :=
  (l.dropWhile isC0OrSpace).filter (fun c => !isDeletedUrlChar c)

/-- Characters allowed after the first character of a URL scheme. -/
def schemeChar (c : Char) : Bool :=
  c.isAlpha || c.isDigit || c == '+' || c == '-' || c == '.'

/-- Scheme detection of `urlsplit`: split at the first `':'` when the part
before it is a letter followed by scheme characters; the scheme is
lower-cased. -/
def splitScheme (l : List Char) : String × List Char :=
  let pre := l.takeWhile (fun c => c ≠ ':')
  let post := l.dropWhile (fun c => c ≠ ':')
  match post, pre with
  | ':' :: rest, c :: cs =>
    if c.isAlpha && cs.all schemeChar then
      (String.mk ((c :: cs).map Char.toLower), rest)
    else ("", l)
  | _, _ => ("", l)

/-- Netloc detection of `urlsplit`: after `"//"`, up to the next
`'/'`, `'?'` or `'#'`. -/
def splitNetloc (l : List Char) : List Char × List Char :=
  match l with
  | '/' :: '/' :: rest =>
    (rest.takeWhile (fun c => c ≠ '/' && c ≠ '?' && c ≠ '#'),
     rest.dropWhile (fun c => c ≠ '/' && c ≠ '?' && c ≠ '#'))
  | _ => ([], l)

/-- Split at the first occurrence of `mark`; the second component is what
follows the mark (empty when the mark is absent). -/
def splitAtFirst (mark : Char) (l : List Char) : List Char × List Char :=
  (l.takeWhile (fun c => c ≠ mark), (l.dropWhile (fun c => c ≠ mark)).drop 1)

structure SplitResult where
  scheme : String
  netloc : String
  path : String
  query : String
  fragment : String
deriving DecidableEq

/-- `urllib.parse.urlsplit`. -/
def pyUrlsplit (url : String) : SplitResult :=
  let l := cleanUrl url.data
  let (scheme, l1) := splitScheme l
  let (netloc, l2) := splitNetloc l1
  let (l3, frag) := splitAtFirst '#' l2
  let (pathq, query) := splitAtFirst '?' l3
  ⟨scheme, String.mk netloc, String.mk pathq, String.mk query, String.mk frag⟩

/-- The `_splitparams` step of `urlparse`: drop everything from the first
`';'` of the last path segment. -/
def splitParams (p : List Char) : List Char :=
  if p.contains '/' then
    match (p.reverse.takeWhile (fun c => c ≠ '/')).reverse.findIdx? (fun c => c == ';') with
    | some j => p.take (p.length - (p.reverse.takeWhile (fun c => c ≠ '/')).length + j)
    | none => p
  else
    match p.findIdx? (fun c => c == ';') with
    | some j => p.take j
    | none => p

/-- Schemes for which `urlparse` splits params off the path. -/
def usesParams : List String :=
  ["", "ftp", "hdl", "prospero", "http", "imap", "https", "shttp", "rtsp",
   "rtsps", "rtspu", "sip", "sips", "mms", "sftp", "tel"]

/-- `urllib.parse.urlparse` (the `path` has params split off when the
scheme is one of `uses_params`). -/
def pyUrlparse (url : String) : SplitResult :=
  let s := pyUrlsplit url
  if usesParams.contains s.scheme && s.path.data.contains ';' then
    { s with path := String.mk (splitParams s.path.data) }
  else s

/-- `Resource.get_url_root` (`resource.py`): `f"{scheme}://{netloc}"` when
the netloc is non-empty, Python `None` otherwise. -/
def getUrlRoot (url : String) : Option String :=
  let u := pyUrlparse url
  if u.netloc ≠ "" then some (u.scheme ++ "://" ++ u.netloc) else none

/-- `Resource._domain_name` (`resource.py`): netloc with a leading
`"www."` removed, Python `None` when there is no netloc. -/
def domainName (url : String) : Option String :=
  let u := pyUrlparse url
  if u.netloc ≠ "" then some (pyRemovePrefix "www." u.netloc) else none

/-! ## `pathlib.PurePosixPath` -/

structure PurePosixPath where
  root : String
  segs : List String
deriving DecidableEq

/-- Parse a string the way `PurePosixPath` does: exactly two leading
slashes give the special root `"//"`, one or three-plus give `"/"`;
empty and `"."` segments are dropped. -/
def PurePosixPath.parse (s : String) : PurePosixPath :=
  let root :=
    match s.data with
    | '/' :: '/' :: '/' :: _ => "/"
    | '/' :: '/' :: _ => "//"
    | '/' :: _ => "/"
    | _ => ""
  ⟨root, ((splitOnChar '/' s.data).map String.mk).filter (fun t => t ≠ "" && t ≠ ".")⟩

/-- `PurePosixPath.parent`: drop the last segment, a no-op at the root
(and on an empty relative path). -/
def PurePosixPath.parent (p : PurePosixPath) : PurePosixPath :=
  if p.segs = [] then p else ⟨p.root, p.segs.dropLast⟩

/-- `parent` applied `n` times (the `while` loop of
`RefProcessor._relative_path`). -/
def PurePosixPath.parentN : Nat → PurePosixPath → PurePosixPath
  | 0, p => p
  | n + 1, p => (PurePosixPath.parentN n p).parent

/-- Join of non-empty segments with `'/'` (the segment part of
`str(PurePosixPath)`). -/
def joinSegs : List String → String
  | [] => ""
  | s :: rest => if rest = [] then s else s ++ "/" ++ joinSegs rest

/-- `PurePosixPath.joinpath` with a single string argument. -/
def PurePosixPath.joinpath (p : PurePosixPath) (s : String) : PurePosixPath :=
  let q := PurePosixPath.parse s
  if q.root ≠ "" then q else ⟨p.root, p.segs ++ q.segs⟩

/-- `str(PurePosixPath)` (an empty relative path renders as `"."`). -/
def PurePosixPath.toStr (p : PurePosixPath) : String :=
  if p.root = "" then (if p.segs = [] then "." else joinSegs p.segs)
  else p.root ++ joinSegs p.segs

/-! ## `ResourceType` (`resourcetype.py`) -/

inductive ResourceType where
  | PAGE
  | IMG
  | CSS
  | JS
  | NO_EXTENSION
deriving DecidableEq

/-- The enum values. -/
def ResourceType.value : ResourceType → String
  | .PAGE => "Page"
  | .IMG => "Image"
  | .CSS => "Stylesheet"
  | .JS => "JavaScript"
  | .NO_EXTENSION => "Generic"

/-- Does one of `toks` occur at a position of `l` preceded only by
non-newline characters?  (The backtracking search of the lazy `.+?` after
the anchored start.) -/
def tokAt (toks : List (List Char)) : List Char → Bool
  | [] => toks.any (fun t => t.isPrefixOf ([] : List Char))
  | c :: rest =>
    toks.any (fun t => t.isPrefixOf (c :: rest)) || (c ≠ '\n' && tokAt toks rest)

/-- `re.match(r".+?(tok1|tok2|…).*?", url)` viewed as a Boolean: some token
occurs at a position at least 1, with no newline before it. -/
def reMatchSub (toks : List (List Char)) (l : List Char) : Bool :=
  match l with
  | [] => false
  | c :: rest => c ≠ '\n' && tokAt toks rest

def pageToks : List (List Char) := [".html".data, ".htm".data]
def imgToks : List (List Char) :=
  [".png".data, ".jpg".data, ".jpeg".data, ".gif".data, ".svg".data, ".ico".data]
def jsToks : List (List Char) := [".js".data]
def cssToks : List (List Char) := [".css".data]

/-- `ResourceType.find` (`resourcetype.py`): the four `re.match` checks in
source order, first match wins. -/
def ResourceType.find (url : String) : ResourceType :=
  if reMatchSub pageToks url.data then .PAGE
  else if reMatchSub imgToks url.data then .IMG
  else if reMatchSub jsToks url.data then .JS
  else if reMatchSub cssToks url.data then .CSS
  else .NO_EXTENSION

/-! ## `RefProcessor` (`refprocessor.py`) -/

/-- The fields of `Resource` that `RefProcessor` reads.  `url_root` is a
Python `str | None` value (`None` when `get_url_root` found no netloc). -/
structure RefCtx where
  path : String
  url_root : Option String
  enable_external_link_processing : Bool

/-- The `link` / `bad_link` pair a `RefProcessor` ends up with. -/
structure RefResult where
  link : String
  bad_link : String
deriving DecidableEq

/-- `"../"` repeated `n` times, as characters. -/
def ddChars : Nat → List Char
  | 0 => []
  | n + 1 => '.' :: '.' :: '/' :: ddChars n

/-- Number of leading `"../"` groups (what `re.match(r"(^\.\./)\1*", ref)`
matches; its `group()` is `"../"` repeated that many times). -/
def ddCount : List Char → Nat
  | '.' :: '.' :: '/' :: rest => ddCount rest + 1
  | _ => 0

/-- Python `s.replace(pat, "")`: delete every left-to-right
non-overlapping occurrence of `pat` (`pat` non-empty).  Written with an
explicit fuel — one unit per character — so that it is structurally
recursive; `removeAll` supplies the exact fuel. -/
def removeAllFuel : Nat → List Char → List Char → List Char
  | 0, _, l => l
  | _ + 1, _, [] => []
  | f + 1, pat, c :: rest =>
    if pat ≠ [] && pat.isPrefixOf (c :: rest) then
      removeAllFuel f pat ((c :: rest).drop pat.length)
    else c :: removeAllFuel f pat rest

/-- Python `s.replace(pat, "")` proper. -/
def removeAll (pat l : List Char) : List Char :=
  removeAllFuel l.length pat l

/-- Does `re.match(r"(^//[.]*.+)", ref)` succeed?  It does exactly when the
reference starts with `"//"` and has a third character other than a
newline (the `[.]*` can only eat literal dots, `.+` needs one
non-newline character). -/
def matchProtoRel : List Char → Bool
  | '/' :: '/' :: c :: _ => c ≠ '\n'
  | _ => false

/-- Does `re.match(r"(^/[^/][.]*.*)", ref)` succeed?  Exactly when the
reference starts with `'/'` and its second character exists and is not
`'/'`. -/
def matchRootRel : List Char → Bool
  | '/' :: c :: _ => c ≠ '/'
  | _ => false

/-- `RefProcessor._relative_path`: delete every occurrence of the matched
leading `"../"` block from the reference, walk the parsed path of the
base resource up one `parent` per `"../"`, then join. -/
def relative_path (r : RefCtx) (reference : String) : String :=
  let n := ddCount reference.data
  let dd := ddChars n
  let relativePath := String.mk (removeAll dd reference.data)
  let prefixPath := PurePosixPath.parse (pyUrlparse r.path).path
  pyStr r.url_root ++ ((PurePosixPath.parentN n prefixPath).joinpath relativePath).toStr

/-- `RefProcessor.__init__`: the precedence chain of resolution rules.
The reference is an `Option String` because `tag.get(...)` yields `None`
for an absent attribute; `if reference:` treats `None` and `""` alike. -/
def refProcess (r : RefCtx) (reference : Option String) : RefResult :=
  match reference with
  | none => ⟨"", ""⟩
  | some ref =>
    if ref = "" then ⟨"", ""⟩
    else if getUrlRoot ref == r.url_root then ⟨ref, ""⟩
    else if r.enable_external_link_processing && matchProtoRel ref.data then
      ⟨"https:" ++ ref, ""⟩
    else if matchRootRel ref.data then ⟨pyStr r.url_root ++ ref, ""⟩
    else if 0 < ddCount ref.data then ⟨relative_path r ref, ""⟩
    else if strStartsWith ref "#" || strStartsWith ref "tel:" ||
        strStartsWith ref "javascript:void" then ⟨ref, ""⟩
    else if !strStartsWith ref "/" && strContains ref "/" && !strContains ref "://" then
      ⟨r.path ++ ref, ""⟩
    else if r.enable_external_link_processing then ⟨ref, ""⟩
    else ⟨"", ref⟩

/-! ## `Resource` (`resource.py`)

The `validators.url` predicate is the external validator parameter `v`;
the transport plus BeautifulSoup scan is the fetch oracle.  A scanned tag
carries its name, the three reference attributes `tag.get` may read, and
its serialization `str(tag)`. -/

structure Tag where
  name : String
  href : Option String
  src : Option String
  srcset : Option String
  reprStr : String
deriving DecidableEq

/-- The attribute extraction of the `match (tag.name)` statement.  Unknown
tag names leave the link empty, which downstream is indistinguishable
from an absent attribute. -/
def extractRef (t : Tag) : Option String :=
  match t.name with
  | "a" => t.href
  | "link" => t.href
  | "img" => t.src
  | "script" => t.src
  | "source" => t.srcset
  | _ => none

/-- `Resource.is_external_link`: `True`/`False` when the reference
validates as a URL, Python `None` (fall-through) otherwise. -/
def is_external_link (v : String → Bool) (reference : String)
    (url_root : Option String) : Option Bool :=
  if v reference then some (!(url_root == getUrlRoot reference)) else none

/-- One valid (`inl`) or invalid (`inr`) record of `_network_resources`,
or `none` when the reference is external and external processing is off. -/
structure Entry where
  link : String
  tag : String
  is_external_link : Option Bool
deriving DecidableEq

/-- The body of the `for tag in soup.find_all(...)` loop. -/
def processTag (v : String → Bool) (r : RefCtx) (t : Tag) : Option (Entry ⊕ Entry) :=
  let rp := refProcess r (extractRef t)
  if rp.link ≠ "" then
    let ext := is_external_link v rp.link r.url_root
    if ext == some true && !r.enable_external_link_processing then none
    else some (.inl ⟨rp.link, t.reprStr, ext⟩)
  else
    let ext := is_external_link v rp.bad_link r.url_root
    if ext == some true && !r.enable_external_link_processing then none
    else some (.inr ⟨rp.bad_link, t.reprStr, ext⟩)

/-- The loop of `_network_resources`, accumulating the valid list and the
bad-link list in document order. -/
def networkResourcesAux (v : String → Bool) (r : RefCtx) : List Tag → List Entry × List Entry
  | [] => ([], [])
  | t :: rest =>
    let (ls, bs) := networkResourcesAux v r rest
    match processTag v r t with
    | some (.inl e) => (e :: ls, bs)
    | some (.inr e) => (ls, e :: bs)
    | none => (ls, bs)

/-- `Resource._network_resources`: only pages and generic resources are
scanned; `soup.find_all(self.allowed_tags)` keeps the tags whose name is
in the allowed list. -/
def network_resources (v : String → Bool) (r : RefCtx) (ty : String)
    (allowed_tags : List String) (tags : List Tag) : List Entry × List Entry :=
  if ty = "Page" || ty = "Generic" then
    networkResourcesAux v r (tags.filter (fun t => allowed_tags.contains t.name))
  else ([], [])

/-- Case-insensitive header lookup (`email.message` `__getitem__`:
first matching header, `None` when absent). -/
def pyHeaderGet (headers : List (String × String)) (k : String) : Option String :=
  (headers.find? (fun p => lowerStr p.1 == lowerStr k)).map Prod.snd

/-- `Resource._filter_headers`:
`{key: headers[key] for key in self.allowed_headers if headers[key]}` —
a truthiness test, so absent headers and empty values are both skipped. -/
def filter_headers (allowed : List String) (headers : List (String × String)) :
    List (String × String) :=
  allowed.filterMap (fun k =>
    match pyHeaderGet headers k with
    | some val => if val ≠ "" then some (k, val) else none
    | none => none)

/-- Outcome of `urlopen`: a raised exception (stringified message) or a
response with status, headers and the scanned tags of the body. -/
inductive FetchOutcome where
  | failure (msg : String)
  | success (status : Nat) (headers : List (String × String)) (tags : List Tag)

/-- The attributes of a `Resource` after `__init__` (the raw body and the
unfiltered header object are absorbed into the fetch oracle). -/
structure Resource where
  path : String
  children : List Entry
  children_invalid : List Entry
  type : String
  error : String
  url_root : Option String
  domain : Option String
  allowed_headers : List String
  allowed_tags : List String
  filtered_headers : List (String × String)
  enable_external_link_processing : Bool
  process_src : Bool
deriving DecidableEq

/-- `Resource.__init__`.  Note the source stores `path.strip()` but
validates and classifies the unstripped `path`; the fetch, when it
happens, uses the stored (stripped) path. -/
def resourceMk (v : String → Bool) (fetch : String → FetchOutcome) (path : String)
    (allowed_headers : List String) (enable_external_link_processing : Bool)
    (process_src : Bool) (allowed_tags : List String) : Resource :=
  let p := pyStrip path
  let ty := (ResourceType.find path).value
  let base : Resource :=
    ⟨p, [], [], ty, "", some "", some "", allowed_headers, allowed_tags, [],
      enable_external_link_processing, process_src⟩
  if v path then
    let root := getUrlRoot p
    let dom := domainName p
    match fetch p with
    | .failure msg => { base with url_root := root, domain := dom, error := msg }
    | .success status hs tags =>
      if status = 200 then
        let fh := filter_headers allowed_headers hs
        if process_src then
          let (cs, bs) := network_resources v
            ⟨p, root, enable_external_link_processing⟩ ty allowed_tags tags
          { base with
            url_root := root, domain := dom, filtered_headers := fh,
            children := cs, children_invalid := bs }
        else { base with url_root := root, domain := dom, filtered_headers := fh }
      else
        { base with
          url_root := root, domain := dom,
          error := "HTTP status code is [" ++ toString status ++ "]" }
  else { base with error := "Non-parsable URL" }

/-! ## Orchestrator (`project.py`) -/

/-- One CSV row as assembled by `update_data`. -/
structure OutRecord where
  url : String
  domain : Option String
  type : String
  headers : List (String × String)
  tag : String
  error : String
deriving DecidableEq

/-- `update_data` (`project.py`). -/
def update_data (r : Resource) (tag : String) : OutRecord :=
  ⟨r.path, r.domain, r.type, r.filtered_headers, tag, r.error⟩

/-- The body of the `for url in urls` loop of `get_response_data`: rows for
the valid children (empty provenance tag), then rows for the invalid
children (tag provenance), then — only when both lists are empty — a
single row for the seed itself. -/
def seedRecords (v : String → Bool) (fetch : String → FetchOutcome)
    (headers : List String) (tags : List String) (flag : Bool) (url : String) :
    List OutRecord :=
  let r := resourceMk v fetch url headers flag true tags
  let valids := r.children.map (fun nr =>
    update_data (resourceMk v fetch nr.link headers flag false tags) "")
  let invalids := r.children_invalid.map (fun bnr =>
    update_data (resourceMk v fetch bnr.link headers flag false tags) bnr.tag)
  valids ++ invalids ++
    (if r.children = [] && r.children_invalid = [] then [update_data r ""] else [])

/-- `get_response_data` (`project.py`): process each seed independently,
appending its rows to the accumulated data. -/
def get_response_data (v : String → Bool) (fetch : String → FetchOutcome)
    (urls : List String) (headers : List String) (tags : List String)
    (flag : Bool) : List OutRecord :=
  match urls with
  | [] => []
  | url :: rest =>
    seedRecords v fetch headers tags flag url ++
      get_response_data v fetch rest headers tags flag

/-! ## Lemmas about the token search of `ResourceType.find` -/

/-- One of the tokens occurs in the character list at a position of at
least 1, with no newline among the characters before it. -/
def occTok (toks : List (List Char)) (url : String) : Prop :=
  ∃ t ∈ toks, ∃ pre post, url.data = pre ++ t ++ post ∧ pre ≠ [] ∧ ∀ c ∈ pre, c ≠ '\n'

theorem isPrefixOf_iff_exists {t l : List Char} :
    t.isPrefixOf l = true ↔ ∃ post, l = t ++ post := by
  rw [List.isPrefixOf_iff_prefix]
  exact ⟨fun ⟨post, h⟩ => ⟨post, h.symm⟩, fun ⟨post, h⟩ => ⟨post, h.symm⟩⟩

theorem tokAt_iff (toks : List (List Char)) (l : List Char) :
    tokAt toks l = true ↔
      ∃ t ∈ toks, ∃ pre post, l = pre ++ t ++ post ∧ ∀ c ∈ pre, c ≠ '\n' := by
  induction l with
  | nil =>
    simp only [tokAt, List.any_eq_true]
    constructor
    · rintro ⟨t, ht, hpre⟩
      rw [isPrefixOf_iff_exists] at hpre
      obtain ⟨post, hpost⟩ := hpre
      exact ⟨t, ht, [], post, by simpa using hpost, by simp⟩
    · rintro ⟨t, ht, pre, post, hl, -⟩
      have h3 : pre = [] ∧ t = [] ∧ post = [] := by simpa using hl.symm
      exact ⟨t, ht, by simp [h3.2.1]⟩
  | cons c rest ih =>
    simp only [tokAt, Bool.or_eq_true, Bool.and_eq_true, List.any_eq_true]
    constructor
    · rintro (⟨t, ht, hpre⟩ | ⟨hc, hrest⟩)
      · rw [isPrefixOf_iff_exists] at hpre
        obtain ⟨post, hpost⟩ := hpre
        exact ⟨t, ht, [], post, by simpa using hpost, by simp⟩
      · obtain ⟨t, ht, pre, post, hl, hnl⟩ := ih.mp hrest
        refine ⟨t, ht, c :: pre, post, by simp [hl], ?_⟩
        intro x hx
        rcases List.mem_cons.mp hx with h | h
        · subst h
          simpa using hc
        · exact hnl x h
    · rintro ⟨t, ht, pre, post, hl, hnl⟩
      match pre, hl with
      | [], hl =>
        left
        refine ⟨t, ht, ?_⟩
        rw [isPrefixOf_iff_exists]
        exact ⟨post, by simpa using hl⟩
      | c' :: pre', hl =>
        right
        have hc : c' = c := by
          have := congrArg (List.head? ·) hl
          simpa using this.symm
        subst hc
        have hrest : rest = pre' ++ t ++ post := by
          simpa using congrArg List.tail hl
        constructor
        · simpa using hnl c' (by simp)
        · exact ih.mpr ⟨t, ht, pre', post, hrest, fun x hx => hnl x (by simp [hx])⟩

theorem reMatchSub_iff (toks : List (List Char)) (url : String) :
    reMatchSub toks url.data = true ↔ occTok toks url := by
  unfold occTok
  cases hurl : url.data with
  | nil =>
    simp only [reMatchSub]
    constructor
    · intro h
      exact absurd h (by simp)
    · rintro ⟨t, ht, pre, post, hl, hpre, -⟩
      have h3 : pre = [] ∧ t = [] ∧ post = [] := by simpa using hl.symm
      exact absurd h3.1 hpre
  | cons c rest =>
    simp only [reMatchSub, Bool.and_eq_true]
    rw [tokAt_iff]
    constructor
    · rintro ⟨hc, t, ht, pre, post, hl, hnl⟩
      refine ⟨t, ht, c :: pre, post, by simp [hl], by simp, ?_⟩
      intro x hx
      rcases List.mem_cons.mp hx with h | h
      · subst h
        simpa using hc
      · exact hnl x h
    · rintro ⟨t, ht, pre, post, hl, hpre, hnl⟩
      match pre, hl with
      | [], hl => exact absurd rfl hpre
      | c' :: pre', hl =>
        have hc : c' = c := by
          have := congrArg (List.head? ·) hl
          simpa using this.symm
        subst hc
        have hrest : rest = pre' ++ t ++ post := by
          simpa using congrArg List.tail hl
        refine ⟨by simpa using hnl c' (by simp), t, ht, pre', post, hrest, ?_⟩
        exact fun x hx => hnl x (by simp [hx])

/-! ## Claim C4 -/

/-- C4, counterexample: the URL `".html"` contains the substring `".html"`
yet classifies as `Generic`, because the source patterns
`re.match(r".+?(\.html|\.htm).*?", url)` demand at least one character
before the extension token.  This refutes plain substring-anywhere
matching. -/
theorem C4_counterexample :
    strContains ".html" ".html" = true ∧
      ResourceType.find ".html" = ResourceType.NO_EXTENSION ∧
      ResourceType.NO_EXTENSION ≠ ResourceType.PAGE := by
  refine ⟨by decide, by decide, by decide⟩

/-- C4 (amended): `classify` is total and matches the listed token groups
in fixed source order with first match winning, where a group matches
exactly when one of its tokens occurs at a position of AT LEAST ONE
(i.e. with at least one character before it, none of which is a
newline) — not plain substring-anywhere: `.html`/`.htm` → Page, else
`.png`/`.jpg`/`.jpeg`/`.gif`/`.svg`/`.ico` → Image, else `.js` →
Script, else `.css` → Stylesheet, else Generic. -/
theorem C4_classify_first_match_order (url : String) :
    (ResourceType.find url = .PAGE ↔ occTok pageToks url) ∧
    (ResourceType.find url = .IMG ↔ ¬occTok pageToks url ∧ occTok imgToks url) ∧
    (ResourceType.find url = .JS ↔
      ¬occTok pageToks url ∧ ¬occTok imgToks url ∧ occTok jsToks url) ∧
    (ResourceType.find url = .CSS ↔
      ¬occTok pageToks url ∧ ¬occTok imgToks url ∧ ¬occTok jsToks url ∧
        occTok cssToks url) ∧
    (ResourceType.find url = .NO_EXTENSION ↔
      ¬occTok pageToks url ∧ ¬occTok imgToks url ∧ ¬occTok jsToks url ∧
        ¬occTok cssToks url) := by
  have hp := reMatchSub_iff pageToks url
  have hi := reMatchSub_iff imgToks url
  have hj := reMatchSub_iff jsToks url
  have hc := reMatchSub_iff cssToks url
  unfold ResourceType.find
  rcases hbp : reMatchSub pageToks url.data with _ | _ <;>
    rcases hbi : reMatchSub imgToks url.data with _ | _ <;>
      rcases hbj : reMatchSub jsToks url.data with _ | _ <;>
        rcases hbc : reMatchSub cssToks url.data with _ | _ <;>
          simp_all

/-! ## Non-emptiness helpers -/

theorem string_ne_empty_iff (s : String) : s ≠ "" ↔ s.data ≠ [] := by
  cases s with
  | mk d =>
    constructor
    · intro h hd
      apply h
      have hd' : d = [] := hd
      subst hd'
      rfl
    · intro h hs
      apply h
      have h2 : String.mk d = String.mk [] := hs
      injection h2

theorem data_append (a b : String) : (a ++ b).data = a.data ++ b.data := by
  cases a
  cases b
  rfl

theorem append_ne_empty_right (a b : String) (h : b ≠ "") : a ++ b ≠ "" := by
  rw [string_ne_empty_iff] at h ⊢
  rw [data_append]
  simp [h]

theorem append_ne_empty_left (a b : String) (h : a ≠ "") : a ++ b ≠ "" := by
  rw [string_ne_empty_iff] at h ⊢
  rw [data_append]
  simp [h]

theorem joinSegs_ne_empty (l : List String) (hne : l ≠ [])
    (h : ∀ x ∈ l, x ≠ "") : joinSegs l ≠ "" := by
  match l with
  | [] => exact absurd rfl hne
  | s :: rest =>
    unfold joinSegs
    by_cases hr : rest = []
    · simpa [hr] using h s (by simp)
    · rw [if_neg hr]
      exact append_ne_empty_left _ _
        (append_ne_empty_left _ _ (h s (by simp)))

theorem toStr_ne_empty (p : PurePosixPath) (h : ∀ x ∈ p.segs, x ≠ "") :
    p.toStr ≠ "" := by
  unfold PurePosixPath.toStr
  by_cases hr : p.root = ""
  · rw [if_pos hr]
    by_cases hs : p.segs = []
    · simp [hs]
    · rw [if_neg hs]
      exact joinSegs_ne_empty _ hs h
  · rw [if_neg hr]
    exact append_ne_empty_left _ _ hr

theorem parse_segs_ne_empty (s : String) :
    ∀ x ∈ (PurePosixPath.parse s).segs, x ≠ "" := by
  intro x hx
  unfold PurePosixPath.parse at hx
  simp only [List.mem_filter] at hx
  have := hx.2
  simp only [Bool.and_eq_true, decide_eq_true_eq] at this
  exact this.1

theorem parent_segs_subset (p : PurePosixPath) :
    ∀ x ∈ p.parent.segs, x ∈ p.segs := by
  intro x hx
  unfold PurePosixPath.parent at hx
  by_cases hs : p.segs = []
  · rwa [if_pos hs] at hx
  · rw [if_neg hs] at hx
    exact (List.dropLast_prefix p.segs).subset hx

theorem parentN_segs_subset (n : Nat) (p : PurePosixPath) :
    ∀ x ∈ (PurePosixPath.parentN n p).segs, x ∈ p.segs := by
  induction n with
  | zero => exact fun x hx => hx
  | succ n ih =>
    intro x hx
    exact ih x (parent_segs_subset _ x hx)

theorem relative_path_ne_empty (r : RefCtx) (ref : String) :
    relative_path r ref ≠ "" := by
  unfold relative_path
  refine append_ne_empty_right _ _ (toStr_ne_empty _ ?_)
  intro x hx
  unfold PurePosixPath.joinpath at hx
  by_cases hq : (PurePosixPath.parse
      (String.mk (removeAll (ddChars (ddCount ref.data)) ref.data))).root ≠ ""
  · rw [if_pos hq] at hx
    exact parse_segs_ne_empty _ x hx
  · rw [if_neg hq] at hx
    simp only [List.mem_append] at hx
    rcases hx with hx | hx
    · exact parse_segs_ne_empty _ x
        (parentN_segs_subset _ _ x hx)
    · exact parse_segs_ne_empty _ x hx

/-! ## Claim C2 -/

/-- C2, counterexample: for the empty raw reference the resolver leaves
BOTH `link` and `bad_link` empty, so "exactly one of the two is
non-empty" fails for that reference. -/
theorem C2_counterexample :
    (refProcess ⟨"https://ex.com/a/b.html", some "https://ex.com", false⟩
        (some "")).link = "" ∧
      (refProcess ⟨"https://ex.com/a/b.html", some "https://ex.com", false⟩
        (some "")).bad_link = "" := by
  exact ⟨rfl, rfl⟩

/-- C2 (amended): for every base resource and every NON-EMPTY raw
reference, exactly one of `link` and `bad_link` of the produced
`RefProcessor` is non-empty.  (The empty/absent reference leaves both
empty.) -/
theorem C2_exactly_one_nonempty (r : RefCtx) (ref : String) (h : ref ≠ "") :
    ((refProcess r (some ref)).link ≠ "" ∧ (refProcess r (some ref)).bad_link = "") ∨
      ((refProcess r (some ref)).link = "" ∧ (refProcess r (some ref)).bad_link ≠ "") := by
  simp only [refProcess]
  rw [if_neg h]
  split_ifs with h1 h2 h3 h4 h5 h6 h7
  · exact Or.inl ⟨h, rfl⟩
  · exact Or.inl ⟨append_ne_empty_left _ _ (by decide), rfl⟩
  · exact Or.inl ⟨append_ne_empty_right _ _ h, rfl⟩
  · exact Or.inl ⟨relative_path_ne_empty r ref, rfl⟩
  · exact Or.inl ⟨h, rfl⟩
  · exact Or.inl ⟨append_ne_empty_right _ _ h, rfl⟩
  · exact Or.inl ⟨h, rfl⟩
  · exact Or.inr ⟨rfl, h⟩

/-- Witness for C2: the amended exactly-one property evaluated at a
concrete base and the concrete reference `"a.png"` (which resolves to a
bad link). -/
theorem C2_exactly_one_nonempty_witness :
    ("a.png" : String) ≠ "" ∧
      (((refProcess ⟨"https://ex.com/a/b.html", some "https://ex.com", false⟩
          (some "a.png")).link ≠ "" ∧
        (refProcess ⟨"https://ex.com/a/b.html", some "https://ex.com", false⟩
          (some "a.png")).bad_link = "") ∨
       ((refProcess ⟨"https://ex.com/a/b.html", some "https://ex.com", false⟩
          (some "a.png")).link = "" ∧
        (refProcess ⟨"https://ex.com/a/b.html", some "https://ex.com", false⟩
          (some "a.png")).bad_link ≠ "")) := by
  exact ⟨by decide,
    C2_exactly_one_nonempty ⟨"https://ex.com/a/b.html", some "https://ex.com", false⟩
      "a.png" (by decide)⟩

/-! ## Claim C7 -/

/-- C7: on a base at `https://ex.com` with external processing disabled,
the protocol-relative reference `"//other.com/x"` matches no resolution
rule and falls through to the bad-link branch: `link` empty,
`bad_link` the raw reference. -/
theorem C7_proto_relative_falls_through :
    refProcess ⟨"https://ex.com", some "https://ex.com", false⟩
        (some "//other.com/x") = ⟨"", "//other.com/x"⟩ := by
  decide

/-! ## Claim C9 -/

/-- C9, counterexample: a header that appears in the response with an
EMPTY value is omitted by the truthiness test
`if headers[key]` of `_filter_headers`, so "exactly the allowed header
names that appear in the response" fails for such a response. -/
theorem C9_counterexample :
    filter_headers ["X"] [("X", "")] = [] ∧
      ([] : List (String × String)) ≠ [("X", "")] := by
  exact ⟨rfl, by decide⟩

/-- C9 (amended): `filteredHeaders` contains exactly the allowed header
names that appear in the response WITH A NON-EMPTY VALUE (lookup is
case-insensitive, first occurrence wins), each mapped to that value, and
nothing else; allowed names absent from the response are omitted and
never an error.  The claim's concrete example holds as stated. -/
theorem C9_filter_headers_membership :
    (filter_headers ["Cache-Control"]
        [("Cache-Control", "no-cache"), ("Pragma", "no-cache")] =
      [("Cache-Control", "no-cache")]) ∧
    ∀ (allowed : List String) (headers : List (String × String)) (k val : String),
      (k, val) ∈ filter_headers allowed headers ↔
        k ∈ allowed ∧ pyHeaderGet headers k = some val ∧ val ≠ "" := by
  refine ⟨rfl, ?_⟩
  intro allowed headers k val
  unfold filter_headers
  rw [List.mem_filterMap]
  constructor
  · rintro ⟨k', hk', hf⟩
    cases hg : pyHeaderGet headers k' with
    | none => rw [hg] at hf; exact absurd hf (by simp)
    | some v =>
      rw [hg] at hf
      have hf' : (if v ≠ "" then some (k', v) else none) = some (k, val) := hf
      by_cases hv : v ≠ ""
      · rw [if_pos hv] at hf'
        have hkv : k' = k ∧ v = val := by
          have := Option.some.inj hf'
          exact ⟨congrArg Prod.fst this, congrArg Prod.snd this⟩
        obtain ⟨h1, h2⟩ := hkv
        subst h1
        subst h2
        exact ⟨hk', hg, hv⟩
      · rw [if_neg hv] at hf'
        exact absurd hf' (by simp)
  · rintro ⟨hk, hg, hval⟩
    refine ⟨k, hk, ?_⟩
    rw [hg]
    show (if val ≠ "" then some (k, val) else none) = some (k, val)
    rw [if_pos hval]

/-! ## Claim C10 -/

/-- C10: `Resource.__init__` stores the whitespace-stripped input as
`path` but validates and classifies the ORIGINAL unstripped argument;
when the validator rejects the raw input (even though the stripped
form validates), the resource ends with error `"Non-parsable URL"`,
empty `url_root` and `domain`, no children, and the fetch oracle is
never consulted (the result is independent of it). -/
theorem C10_validates_unstripped (v : String → Bool)
    (fetch fetch2 : String → FetchOutcome) (s : String) (hdrs : List String)
    (en ps : Bool) (tags : List String)
    (_hstripped : v (pyStrip s) = true) (hraw : v s = false) :
    (resourceMk v fetch s hdrs en ps tags).path = pyStrip s ∧
    (resourceMk v fetch s hdrs en ps tags).type = (ResourceType.find s).value ∧
    (resourceMk v fetch s hdrs en ps tags).error = "Non-parsable URL" ∧
    (resourceMk v fetch s hdrs en ps tags).url_root = some "" ∧
    (resourceMk v fetch s hdrs en ps tags).domain = some "" ∧
    (resourceMk v fetch s hdrs en ps tags).children = [] ∧
    (resourceMk v fetch s hdrs en ps tags).children_invalid = [] ∧
    resourceMk v fetch2 s hdrs en ps tags = resourceMk v fetch s hdrs en ps tags := by
  simp [resourceMk, hraw]

/-- Witness for C10 at the concrete input `" https://ex.com"` (valid only
after stripping the leading space) with two distinct fetch oracles. -/
theorem C10_validates_unstripped_witness :
    ((fun t => t == "https://ex.com") (pyStrip " https://ex.com") = true) ∧
    ((fun t => t == "https://ex.com") " https://ex.com" = false) ∧
    ((resourceMk (fun t => t == "https://ex.com") (fun _ => .failure "f1")
        " https://ex.com" ["Cache-Control"] false true ["img"]).path =
          pyStrip " https://ex.com" ∧
     (resourceMk (fun t => t == "https://ex.com") (fun _ => .failure "f1")
        " https://ex.com" ["Cache-Control"] false true ["img"]).type =
          (ResourceType.find " https://ex.com").value ∧
     (resourceMk (fun t => t == "https://ex.com") (fun _ => .failure "f1")
        " https://ex.com" ["Cache-Control"] false true ["img"]).error =
          "Non-parsable URL" ∧
     (resourceMk (fun t => t == "https://ex.com") (fun _ => .failure "f1")
        " https://ex.com" ["Cache-Control"] false true ["img"]).url_root = some "" ∧
     (resourceMk (fun t => t == "https://ex.com") (fun _ => .failure "f1")
        " https://ex.com" ["Cache-Control"] false true ["img"]).domain = some "" ∧
     (resourceMk (fun t => t == "https://ex.com") (fun _ => .failure "f1")
        " https://ex.com" ["Cache-Control"] false true ["img"]).children = [] ∧
     (resourceMk (fun t => t == "https://ex.com") (fun _ => .failure "f1")
        " https://ex.com" ["Cache-Control"] false true ["img"]).children_invalid = [] ∧
     resourceMk (fun t => t == "https://ex.com") (fun _ => .failure "f2")
        " https://ex.com" ["Cache-Control"] false true ["img"] =
       resourceMk (fun t => t == "https://ex.com") (fun _ => .failure "f1")
        " https://ex.com" ["Cache-Control"] false true ["img"]) := by
  exact ⟨by decide, by decide,
    C10_validates_unstripped (fun t => t == "https://ex.com")
      (fun _ => .failure "f1") (fun _ => .failure "f2") " https://ex.com"
      ["Cache-Control"] false true ["img"] (by decide) (by decide)⟩

/-! ## When `get_url_root` yields `None` -/

theorem cleanUrl_eq_self (a : Char) (l : List Char) (ha : isC0OrSpace a = false)
    (hcl : ∀ x ∈ a :: l, isDeletedUrlChar x = false) :
    cleanUrl (a :: l) = a :: l := by
  unfold cleanUrl
  rw [List.dropWhile_cons]
  rw [if_neg (by simp [ha])]
  exact List.filter_eq_self.mpr (fun x hx => by simp [hcl x hx])

theorem splitScheme_not_alpha (a : Char) (l : List Char) (ha : a.isAlpha = false) :
    splitScheme (a :: l) = ("", a :: l) := by
  unfold splitScheme
  dsimp only
  split
  · next rest c cs hpost hpre =>
    have hca : c = a := by
      by_cases hcol : a = ':'
      · subst hcol
        rw [List.takeWhile_cons, if_neg (by simp)] at hpre
        exact absurd hpre (by simp)
      · rw [List.takeWhile_cons, if_pos (by simpa using hcol)] at hpre
        have h2 : a = c ∧ List.takeWhile (fun c => decide (c ≠ ':')) l = cs := by
          simpa using hpre
        exact h2.1.symm
    rw [if_neg]
    simp [hca, ha]
  · rfl

theorem splitNetloc_of_no_slash2 (cs : List Char) (h : cs.take 2 ≠ ['/', '/']) :
    splitNetloc cs = ([], cs) := by
  unfold splitNetloc
  split
  · exact absurd (by simp) h
  · rfl

theorem pyUrlparse_netloc (url : String) :
    (pyUrlparse url).netloc = (pyUrlsplit url).netloc := by
  unfold pyUrlparse
  dsimp only
  split <;> rfl

theorem pyUrlsplit_netloc_empty (ref : String) (cs : List Char)
    (hclean : cleanUrl ref.data = cs)
    (hss : splitScheme cs = ("", cs))
    (hsn : splitNetloc cs = ([], cs)) :
    (pyUrlsplit ref).netloc = "" := by
  simp only [pyUrlsplit, hclean, hss, hsn]

theorem getUrlRoot_eq_none_of_netloc (ref : String)
    (h : (pyUrlsplit ref).netloc = "") : getUrlRoot ref = none := by
  have h2 : (pyUrlparse ref).netloc = "" := by rw [pyUrlparse_netloc]; exact h
  unfold getUrlRoot
  simp [h2]

/-- A reference whose (uncleaned-identical) data starts with a
non-alphabetic character and does not start with `"//"` has no netloc,
hence `get_url_root` yields `None`. -/
theorem getUrlRoot_none_shape (ref : String) (a : Char) (l : List Char)
    (hdata : ref.data = a :: l)
    (ha : isC0OrSpace a = false)
    (halpha : a.isAlpha = false)
    (hslash : (a :: l).take 2 ≠ ['/', '/'])
    (hcl : ∀ x ∈ a :: l, isDeletedUrlChar x = false) :
    getUrlRoot ref = none := by
  refine getUrlRoot_eq_none_of_netloc ref (pyUrlsplit_netloc_empty ref (a :: l) ?_ ?_ ?_)
  · rw [hdata]
    exact cleanUrl_eq_self a l ha hcl
  · exact splitScheme_not_alpha a l halpha
  · exact splitNetloc_of_no_slash2 _ hslash

/-! ## Claim C6 -/

/-- C6, counterexample: the bare reference `"/"` is non-empty, starts with
`"/"` and not with `"//"`, yet the root-relative rule's regex
`(^/[^/][.]*.*)` demands a second character, so `"/"` falls through to
the bad-link branch instead of resolving to `urlRoot ++ "/"`. -/
theorem C6_counterexample :
    (refProcess ⟨"https://ex.com", some "https://ex.com", false⟩ (some "/")).link = "" ∧
      (refProcess ⟨"https://ex.com", some "https://ex.com", false⟩
        (some "/")).bad_link = "/" ∧
      ("" : String) ≠ "https://ex.com" ++ "/" := by
  exact ⟨by decide, by decide, by decide⟩

/-- C6 (amended): every reference that starts with `'/'` and whose SECOND
character exists and is not `'/'` (and that contains none of the
characters tab/CR/LF that `urlsplit` deletes) resolves to the
concatenation of the base resource's `urlRoot` with the reference.  The
bare reference `"/"` instead falls through the rule chain. -/
theorem C6_root_relative_concat (r : RefCtx) (root ref : String) (c : Char)
    (rest : List Char)
    (hroot : r.url_root = some root)
    (hshape : ref.data = '/' :: c :: rest)
    (hc : c ≠ '/')
    (hcl : ∀ x ∈ ref.data, isDeletedUrlChar x = false) :
    refProcess r (some ref) = ⟨root ++ ref, ""⟩ := by
  have hne : ref ≠ "" := (string_ne_empty_iff ref).mpr (by rw [hshape]; simp)
  have hg : getUrlRoot ref = none := by
    refine getUrlRoot_none_shape ref '/' (c :: rest) hshape (by decide) (by decide)
      ?_ (by rw [← hshape]; exact hcl)
    intro htake
    have h2 : c = '/' := by simpa using htake
    exact hc h2
  have h1 : (getUrlRoot ref == r.url_root) = false := by
    rw [hg, hroot]
    rfl
  have h2 : matchProtoRel ref.data = false := by
    rw [hshape]
    unfold matchProtoRel
    split
    · next c' l' heq =>
      have h3 : c = '/' ∧ rest = c' :: l' := by simpa using heq
      exact absurd h3.1 hc
    · rfl
  have h3 : matchRootRel ref.data = true := by
    rw [hshape]
    unfold matchRootRel
    simp [hc]
  simp only [refProcess]
  rw [if_neg hne, if_neg (by rw [h1]; simp),
    if_neg (show ¬ ((r.enable_external_link_processing && matchProtoRel ref.data) = true) by
      rw [h2]; simp),
    if_pos h3, hroot]
  rfl

/-- Witness for C6 at the concrete base `https://ex.com` and reference
`"/c.png"`. -/
theorem C6_root_relative_concat_witness :
    ((⟨"https://ex.com", some "https://ex.com", false⟩ : RefCtx).url_root =
        some "https://ex.com") ∧
      ("/c.png".data = '/' :: 'c' :: ".png".data) ∧
      ('c' ≠ '/') ∧
      (∀ x ∈ "/c.png".data, isDeletedUrlChar x = false) ∧
      refProcess ⟨"https://ex.com", some "https://ex.com", false⟩ (some "/c.png") =
        ⟨"https://ex.com" ++ "/c.png", ""⟩ := by
  refine ⟨rfl, by decide, by decide, by decide, ?_⟩
  exact C6_root_relative_concat ⟨"https://ex.com", some "https://ex.com", false⟩
    "https://ex.com" "/c.png" 'c' ".png".data rfl (by decide) (by decide) (by decide)

/-! ## Lemmas on the `_network_resources` loop -/

theorem networkResourcesAux_append (v : String → Bool) (r : RefCtx)
    (l1 l2 : List Tag) :
    networkResourcesAux v r (l1 ++ l2) =
      ((networkResourcesAux v r l1).1 ++ (networkResourcesAux v r l2).1,
       (networkResourcesAux v r l1).2 ++ (networkResourcesAux v r l2).2) := by
  induction l1 with
  | nil => simp [networkResourcesAux]
  | cons t l1 ih =>
    simp only [List.cons_append, networkResourcesAux, List.append_eq, ih]
    cases processTag v r t with
    | none => rfl
    | some s =>
      cases s with
      | inl e => rfl
      | inr e => rfl

/-- An empty or absent extracted reference resolves to the all-empty
`RefProcessor` and the loop body records it as an INVALID entry with
empty link and `None` externality (assuming, as for `validators.url`,
that the validator rejects the empty string). -/
theorem processTag_empty_ref (v : String → Bool) (r : RefCtx) (t : Tag)
    (hext : extractRef t = none ∨ extractRef t = some "")
    (hv : v "" = false) :
    processTag v r t = some (Sum.inr ⟨"", t.reprStr, none⟩) := by
  have hrp : refProcess r (extractRef t) = ⟨"", ""⟩ := by
    rcases hext with h | h <;> rw [h] <;> rfl
  have he : is_external_link v "" r.url_root = none := by
    unfold is_external_link
    rw [hv]
    rfl
  unfold processTag
  rw [hrp]
  dsimp only
  rw [if_neg (by simp), he, if_neg (by simp)]

/-! ## Claim C3 -/

/-- C3, counterexample: a scanned `img` tag with no `src` attribute IS
recorded: it lands in the invalid set as an entry with empty link, so
"the reference appears in neither set" fails. -/
theorem C3_counterexample :
    network_resources (fun s => strStartsWith s "https://")
        ⟨"https://ex.com/index.html", some "https://ex.com", false⟩ "Page" ["img"]
        [⟨"img", none, none, none, "<img/>"⟩] =
      ([], [⟨"", "<img/>", none⟩]) ∧
      ([⟨"", "<img/>", none⟩] : List Entry) ≠ [] := by
  exact ⟨by decide, by decide⟩

/-- C3 (amended): for every scanned tag whose extracted reference is empty
or absent, resolution yields empty `link` and empty `bad_link`, the tag
contributes nothing to the valid set, and it IS recorded in the invalid
set as an entry with empty link (and `None` externality) carrying the
tag's serialization — not silently dropped. -/
theorem C3_empty_ref_recorded_invalid (v : String → Bool) (r : RefCtx)
    (ty : String) (allowed : List String) (t : Tag) (pre post : List Tag)
    (hext : extractRef t = none ∨ extractRef t = some "")
    (hv : v "" = false)
    (hty : ty = "Page" ∨ ty = "Generic")
    (hname : allowed.contains t.name = true) :
    refProcess r (extractRef t) = ⟨"", ""⟩ ∧
      network_resources v r ty allowed (pre ++ t :: post) =
        ((networkResourcesAux v r
            (pre.filter (fun x => allowed.contains x.name))).1 ++
          (networkResourcesAux v r
            (post.filter (fun x => allowed.contains x.name))).1,
         (networkResourcesAux v r
            (pre.filter (fun x => allowed.contains x.name))).2 ++
          (⟨"", t.reprStr, none⟩ : Entry) ::
            (networkResourcesAux v r
              (post.filter (fun x => allowed.contains x.name))).2) := by
  refine ⟨by rcases hext with h | h <;> rw [h] <;> rfl, ?_⟩
  unfold network_resources
  rw [if_pos (by rcases hty with h | h <;> simp [h])]
  rw [List.filter_append]
  have hfil : (t :: post).filter (fun x => allowed.contains x.name) =
      t :: post.filter (fun x => allowed.contains x.name) :=
    List.filter_cons_of_pos hname
  rw [hfil, networkResourcesAux_append]
  have hpt := processTag_empty_ref v r t hext hv
  simp only [networkResourcesAux, hpt]

/-- Witness for C3: one `img` tag with no `src` attribute on a Page
resource. -/
theorem C3_empty_ref_recorded_invalid_witness :
    (extractRef ⟨"img", none, none, none, "<img/>"⟩ = none ∨
      extractRef ⟨"img", none, none, none, "<img/>"⟩ = some "") ∧
    ((fun s => strStartsWith s "https://") "" = false) ∧
    (("Page" : String) = "Page" ∨ ("Page" : String) = "Generic") ∧
    (["img"].contains (Tag.name ⟨"img", none, none, none, "<img/>"⟩) = true) ∧
    (refProcess ⟨"https://ex.com/index.html", some "https://ex.com", false⟩
        (extractRef ⟨"img", none, none, none, "<img/>"⟩) = ⟨"", ""⟩ ∧
      network_resources (fun s => strStartsWith s "https://")
          ⟨"https://ex.com/index.html", some "https://ex.com", false⟩ "Page" ["img"]
          ([] ++ ⟨"img", none, none, none, "<img/>"⟩ :: []) =
        ((networkResourcesAux (fun s => strStartsWith s "https://")
            ⟨"https://ex.com/index.html", some "https://ex.com", false⟩
            (List.filter (fun x => ["img"].contains x.name) [])).1 ++
          (networkResourcesAux (fun s => strStartsWith s "https://")
            ⟨"https://ex.com/index.html", some "https://ex.com", false⟩
            (List.filter (fun x => ["img"].contains x.name) [])).1,
         (networkResourcesAux (fun s => strStartsWith s "https://")
            ⟨"https://ex.com/index.html", some "https://ex.com", false⟩
            (List.filter (fun x => ["img"].contains x.name) [])).2 ++
          (⟨"", Tag.reprStr ⟨"img", none, none, none, "<img/>"⟩, none⟩ : Entry) ::
            (networkResourcesAux (fun s => strStartsWith s "https://")
              ⟨"https://ex.com/index.html", some "https://ex.com", false⟩
              (List.filter (fun x => ["img"].contains x.name) [])).2)) := by
  refine ⟨Or.inl rfl, by decide, Or.inl rfl, by decide, ?_⟩
  exact C3_empty_ref_recorded_invalid (fun s => strStartsWith s "https://")
    ⟨"https://ex.com/index.html", some "https://ex.com", false⟩ "Page" ["img"]
    ⟨"img", none, none, none, "<img/>"⟩ [] [] (Or.inl rfl) (by decide)
    (Or.inl rfl) (by decide)

/-! ## Claim C5 -/

theorem kept_link_same_root (v : String → Bool) (url_root : Option String)
    (link : String)
    (hguard : (is_external_link v link url_root == some true) = false)
    (hv : v link = true) : getUrlRoot link = url_root := by
  unfold is_external_link at hguard
  rw [if_pos hv] at hguard
  have h1 : ((!(url_root == getUrlRoot link)) == true) = false := hguard
  have h2 : (url_root == getUrlRoot link) = true := by
    simpa using h1
  exact (eq_of_beq h2).symm

theorem processTag_mem_root (v : String → Bool) (r : RefCtx) (t : Tag) (e : Entry)
    (henable : r.enable_external_link_processing = false)
    (h : processTag v r t = some (Sum.inl e) ∨ processTag v r t = some (Sum.inr e))
    (hv : v e.link = true) :
    getUrlRoot e.link = r.url_root := by
  unfold processTag at h
  dsimp only at h
  by_cases hl : (refProcess r (extractRef t)).link ≠ ""
  · rw [if_pos hl] at h
    by_cases hg : ((is_external_link v (refProcess r (extractRef t)).link r.url_root ==
        some true) && !r.enable_external_link_processing) = true
    · rw [if_pos hg] at h
      rcases h with h | h <;> exact absurd h (by simp)
    · rw [if_neg hg] at h
      rcases h with h | h
      · have he : (⟨(refProcess r (extractRef t)).link, t.reprStr,
            is_external_link v (refProcess r (extractRef t)).link r.url_root⟩ : Entry) = e :=
          Sum.inl.inj (Option.some.inj h)
        have hgf : (is_external_link v (refProcess r (extractRef t)).link r.url_root ==
            some true) = false := by
          rcases hx : (is_external_link v (refProcess r (extractRef t)).link r.url_root ==
              some true) with _ | _
          · rfl
          · rw [henable] at hg
            simp [hx] at hg
        have hlink : e.link = (refProcess r (extractRef t)).link := by
          rw [← he]
        rw [hlink]
        exact kept_link_same_root v r.url_root _ hgf (by rwa [hlink] at hv)
      · exact absurd h (by simp)
  · rw [if_neg hl] at h
    by_cases hg : ((is_external_link v (refProcess r (extractRef t)).bad_link r.url_root ==
        some true) && !r.enable_external_link_processing) = true
    · rw [if_pos hg] at h
      rcases h with h | h <;> exact absurd h (by simp)
    · rw [if_neg hg] at h
      rcases h with h | h
      · exact absurd h (by simp)
      · have he : (⟨(refProcess r (extractRef t)).bad_link, t.reprStr,
            is_external_link v (refProcess r (extractRef t)).bad_link r.url_root⟩ : Entry) = e :=
          Sum.inr.inj (Option.some.inj h)
        have hgf : (is_external_link v (refProcess r (extractRef t)).bad_link r.url_root ==
            some true) = false := by
          rcases hx : (is_external_link v (refProcess r (extractRef t)).bad_link r.url_root ==
              some true) with _ | _
          · rfl
          · rw [henable] at hg
            simp [hx] at hg
        have hlink : e.link = (refProcess r (extractRef t)).bad_link := by
          rw [← he]
        rw [hlink]
        exact kept_link_same_root v r.url_root _ hgf (by rwa [hlink] at hv)

theorem networkResourcesAux_same_root (v : String → Bool) (r : RefCtx)
    (henable : r.enable_external_link_processing = false) (tags : List Tag)
    (e : Entry)
    (he : e ∈ (networkResourcesAux v r tags).1 ∨
      e ∈ (networkResourcesAux v r tags).2)
    (hv : v e.link = true) :
    getUrlRoot e.link = r.url_root := by
  induction tags with
  | nil =>
    rcases he with h | h <;> simp [networkResourcesAux] at h
  | cons t rest ih =>
    rcases hpt : processTag v r t with _ | s
    · simp only [networkResourcesAux, hpt] at he
      exact ih he
    · cases s with
      | inl e' =>
        simp only [networkResourcesAux, hpt] at he
        rcases he with h | h
        · rcases List.mem_cons.mp h with h | h
          · subst h
            exact processTag_mem_root v r t e henable (Or.inl hpt) hv
          · exact ih (Or.inl h)
        · exact ih (Or.inr h)
      | inr e' =>
        simp only [networkResourcesAux, hpt] at he
        rcases he with h | h
        · exact ih (Or.inl h)
        · rcases List.mem_cons.mp h with h | h
          · subst h
            exact processTag_mem_root v r t e henable (Or.inr hpt) hv
          · exact ih (Or.inr h)

/-- C5: with `allowExternal = false`, every entry recorded by an
inspected resource — valid (`children`) or invalid (`children_invalid`)
— whose stored link the validator accepts as a syntactic URL has
exactly the base resource's URL root; cross-domain references never
appear in either set. -/
theorem C5_no_cross_domain_recorded (v : String → Bool)
    (fetch : String → FetchOutcome) (path : String) (hdrs : List String)
    (ps : Bool) (atags : List String) (e : Entry)
    (he : e ∈ (resourceMk v fetch path hdrs false ps atags).children ∨
      e ∈ (resourceMk v fetch path hdrs false ps atags).children_invalid)
    (hv : v e.link = true) :
    getUrlRoot e.link = (resourceMk v fetch path hdrs false ps atags).url_root := by
  unfold resourceMk at he ⊢
  dsimp only at he ⊢
  by_cases hvp : v path = true
  · rw [if_pos hvp] at he ⊢
    cases hf : fetch (pyStrip path) with
    | failure msg =>
      rw [hf] at he
      dsimp only at he
      rcases he with h | h <;> exact absurd h (by simp)
    | success st hs tags =>
      rw [hf] at he
      dsimp only at he ⊢
      by_cases hst : st = 200
      · rw [if_pos hst] at he ⊢
        by_cases hps : ps = true
        · rw [if_pos hps] at he ⊢
          rcases hnr : network_resources v
              ⟨pyStrip path, getUrlRoot (pyStrip path), false⟩
              ((ResourceType.find path).value) atags tags with ⟨cs, bs⟩
          rw [hnr] at he
          dsimp only at he ⊢
          unfold network_resources at hnr
          by_cases hty : ((ResourceType.find path).value = "Page" ∨
              (ResourceType.find path).value = "Generic")
          · rw [if_pos (by rcases hty with h | h <;> simp [h])] at hnr
            refine networkResourcesAux_same_root v
              ⟨pyStrip path, getUrlRoot (pyStrip path), false⟩ rfl
              (tags.filter (fun x => atags.contains x.name)) e ?_ hv
            rw [hnr]
            exact he
          · rw [if_neg (by simpa using hty)] at hnr
            injection hnr with h1 h2
            rw [← h1, ← h2] at he
            rcases he with h | h <;> exact absurd h (by simp)
        · rw [if_neg hps] at he
          rcases he with h | h <;> exact absurd h (by simp)
      · rw [if_neg hst] at he
        rcases he with h | h <;> exact absurd h (by simp)
  · rw [if_neg hvp] at he
    rcases he with h | h <;> exact absurd h (by simp)

set_option maxRecDepth 16384 in
/-- Witness for C5: a Page seed with one same-domain `img` reference;
the recorded valid entry's link root equals the base root. -/
theorem C5_no_cross_domain_recorded_witness :
    ((⟨"https://ex.com/x.png", "<img src=/x.png/>", some false⟩ : Entry) ∈
        (resourceMk (fun s => strStartsWith s "https://")
          (fun _ => .success 200 []
            [⟨"img", none, some "/x.png", none, "<img src=/x.png/>"⟩])
          "https://ex.com/index.html" [] false true ["img"]).children ∨
      (⟨"https://ex.com/x.png", "<img src=/x.png/>", some false⟩ : Entry) ∈
        (resourceMk (fun s => strStartsWith s "https://")
          (fun _ => .success 200 []
            [⟨"img", none, some "/x.png", none, "<img src=/x.png/>"⟩])
          "https://ex.com/index.html" [] false true ["img"]).children_invalid) ∧
    ((fun s => strStartsWith s "https://") "https://ex.com/x.png" = true) ∧
    getUrlRoot "https://ex.com/x.png" =
      (resourceMk (fun s => strStartsWith s "https://")
        (fun _ => .success 200 []
          [⟨"img", none, some "/x.png", none, "<img src=/x.png/>"⟩])
        "https://ex.com/index.html" [] false true ["img"]).url_root := by
  refine ⟨Or.inl (by decide), by decide, ?_⟩
  exact C5_no_cross_domain_recorded (fun s => strStartsWith s "https://")
    (fun _ => .success 200 [] [⟨"img", none, some "/x.png", none, "<img src=/x.png/>"⟩])
    "https://ex.com/index.html" [] true ["img"]
    ⟨"https://ex.com/x.png", "<img src=/x.png/>", some false⟩
    (Or.inl (by decide)) (by decide)

/-! ## Claim C8 -/

/-- In every branch of `__init__` the stored `path` is the stripped
argument. -/
theorem resourceMk_path (v : String → Bool) (fetch : String → FetchOutcome)
    (path : String) (hdrs : List String) (en ps : Bool) (tags : List String) :
    (resourceMk v fetch path hdrs en ps tags).path = pyStrip path := by
  unfold resourceMk
  dsimp only
  repeat' split
  all_goals rfl

theorem get_response_data_append (v : String → Bool)
    (fetch : String → FetchOutcome) (l1 l2 : List String)
    (headers tags : List String) (flag : Bool) :
    get_response_data v fetch (l1 ++ l2) headers tags flag =
      get_response_data v fetch l1 headers tags flag ++
        get_response_data v fetch l2 headers tags flag := by
  induction l1 with
  | nil => simp [get_response_data]
  | cons u l1 ih =>
    simp only [List.cons_append, get_response_data, List.append_eq, ih]
    rw [List.append_assoc]

/-- C8: a seed whose inspection yields empty valid and invalid sets
contributes exactly one output row — for the seed itself, with empty
provenance tag and `path.strip()` as URL — and the run over the
remaining seeds is unaffected; on a failed seed the `error` field holds
the failure (invalid URL, transport failure message, or the non-200
status text). -/
theorem C8_failed_seed_single_record (v : String → Bool)
    (fetch : String → FetchOutcome) (headers tags : List String) (flag : Bool)
    (pre post : List String) (url : String)
    (h1 : (resourceMk v fetch url headers flag true tags).children = [])
    (h2 : (resourceMk v fetch url headers flag true tags).children_invalid = []) :
    get_response_data v fetch (pre ++ url :: post) headers tags flag =
      get_response_data v fetch pre headers tags flag ++
        [update_data (resourceMk v fetch url headers flag true tags) ""] ++
        get_response_data v fetch post headers tags flag ∧
    (update_data (resourceMk v fetch url headers flag true tags) "").tag = "" ∧
    (update_data (resourceMk v fetch url headers flag true tags) "").url = pyStrip url ∧
    (v url = false →
      (resourceMk v fetch url headers flag true tags).error = "Non-parsable URL") ∧
    (∀ msg, v url = true → fetch (pyStrip url) = .failure msg →
      (resourceMk v fetch url headers flag true tags).error = msg) ∧
    (∀ st hs tg, v url = true → fetch (pyStrip url) = .success st hs tg →
      st ≠ 200 →
      (resourceMk v fetch url headers flag true tags).error =
        "HTTP status code is [" ++ toString st ++ "]") := by
  have hseed : seedRecords v fetch headers tags flag url =
      [update_data (resourceMk v fetch url headers flag true tags) ""] := by
    unfold seedRecords
    dsimp only
    rw [h1, h2]
    simp
  refine ⟨?_, rfl, ?_, ?_, ?_, ?_⟩
  · rw [get_response_data_append]
    have hcons : get_response_data v fetch (url :: post) headers tags flag =
        seedRecords v fetch headers tags flag url ++
          get_response_data v fetch post headers tags flag := rfl
    rw [hcons, hseed, ← List.append_assoc]
  · show (resourceMk v fetch url headers flag true tags).path = pyStrip url
    exact resourceMk_path v fetch url headers flag true tags
  · intro hv
    simp [resourceMk, hv]
  · intro msg hv hf
    simp [resourceMk, hv, hf]
  · intro st hs tg hv hf hst
    simp [resourceMk, hv, hf, hst]

/-- Witness for C8: a single seed that fails validation produces exactly
its own record. -/
theorem C8_failed_seed_single_record_witness :
    ((resourceMk (fun _ => false) (fun _ => .failure "boom") "x" [] false true
        []).children = []) ∧
    ((resourceMk (fun _ => false) (fun _ => .failure "boom") "x" [] false true
        []).children_invalid = []) ∧
    get_response_data (fun _ => false) (fun _ => .failure "boom")
        ([] ++ "x" :: []) [] [] false =
      get_response_data (fun _ => false) (fun _ => .failure "boom") [] [] [] false ++
        [update_data (resourceMk (fun _ => false) (fun _ => .failure "boom") "x"
          [] false true []) ""] ++
        get_response_data (fun _ => false) (fun _ => .failure "boom") [] [] []
          false := by
  refine ⟨by decide, by decide, ?_⟩
  exact (C8_failed_seed_single_record (fun _ => false) (fun _ => .failure "boom")
    [] [] false [] [] "x" (by decide) (by decide)).1

/-! ## Lemmas for dotted-relative resolution (claim C1) -/

theorem ddCount_cons3 (rest : List Char) :
    ddCount ('.' :: '.' :: '/' :: rest) = ddCount rest + 1 := rfl

theorem ddCount_ddChars_append (n : Nat) (l : List Char) :
    ddCount (ddChars n ++ l) = n + ddCount l := by
  induction n with
  | zero => simp [ddChars]
  | succ n ih =>
    show ddCount ('.' :: '.' :: '/' :: (ddChars n ++ l)) = (n + 1) + ddCount l
    rw [ddCount_cons3, ih]
    omega

theorem ddChars_ne_nil (n : Nat) (hn : 0 < n) : ddChars n ≠ [] := by
  cases n with
  | zero => exact absurd hn (by simp)
  | succ n => simp [ddChars]

theorem removeAllFuel_congr : ∀ (f1 f2 : Nat) (pat l : List Char),
    l.length ≤ f1 → l.length ≤ f2 →
    removeAllFuel f1 pat l = removeAllFuel f2 pat l := by
  intro f1
  induction f1 with
  | zero =>
    intro f2 pat l h1 h2
    have hl : l = [] := List.eq_nil_of_length_eq_zero (by omega)
    subst hl
    cases f2 <;> rfl
  | succ f1 ih =>
    intro f2 pat l h1 h2
    cases l with
    | nil => cases f2 <;> rfl
    | cons c rest =>
      cases f2 with
      | zero =>
        simp only [List.length_cons] at h2
        omega
      | succ f2 =>
        simp only [removeAllFuel]
        simp only [List.length_cons] at h1 h2
        by_cases hcond : (pat ≠ [] && pat.isPrefixOf (c :: rest)) = true
        · rw [if_pos hcond, if_pos hcond]
          have hp : pat ≠ [] := by
            simp only [Bool.and_eq_true, decide_eq_true_eq] at hcond
            exact hcond.1
          have hplen : 0 < pat.length := List.length_pos.mpr hp
          apply ih
          · simp only [List.length_drop, List.length_cons]
            omega
          · simp only [List.length_drop, List.length_cons]
            omega
        · rw [if_neg hcond, if_neg hcond]
          congr 1
          apply ih <;> omega

theorem removeAll_cons_eq (pat : List Char) (c : Char) (rest : List Char) :
    removeAll pat (c :: rest) =
      if pat ≠ [] && pat.isPrefixOf (c :: rest) then
        removeAll pat ((c :: rest).drop pat.length)
      else c :: removeAll pat rest := by
  unfold removeAll
  simp only [List.length_cons, removeAllFuel]
  by_cases hcond : (pat ≠ [] && pat.isPrefixOf (c :: rest)) = true
  · rw [if_pos hcond, if_pos hcond]
    have hp : pat ≠ [] := by
      simp only [Bool.and_eq_true, decide_eq_true_eq] at hcond
      exact hcond.1
    have hplen : 0 < pat.length := List.length_pos.mpr hp
    apply removeAllFuel_congr
    · simp only [List.length_drop, List.length_cons]
      omega
    · exact Nat.le_refl _
  · rw [if_neg hcond, if_neg hcond]

theorem removeAll_prepend (pat s : List Char) (hp : pat ≠ []) :
    removeAll pat (pat ++ s) = removeAll pat s := by
  cases pat with
  | nil => exact absurd rfl hp
  | cons c p =>
    have hpre : (c :: p).isPrefixOf (c :: p ++ s) = true := by
      rw [isPrefixOf_iff_exists]
      exact ⟨s, by simp⟩
    rw [show ((c :: p) ++ s) = c :: (p ++ s) from rfl, removeAll_cons_eq,
      if_pos (by simp [hpre]),
      show (c :: (p ++ s)) = ((c :: p) ++ s) from rfl, List.drop_left (c :: p) s]

theorem removeAll_of_no_sub (pat s : List Char) (h : hasSub pat s = false) :
    removeAll pat s = s := by
  induction s with
  | nil => rfl
  | cons c rest ih =>
    unfold hasSub at h
    rw [Bool.or_eq_false_iff] at h
    rw [removeAll_cons_eq, if_neg (by simp [h.1]), ih h.2]

theorem mk_data (s : String) : String.mk s.data = s := by
  cases s
  rfl

theorem parent_abs (ss : List String) :
    PurePosixPath.parent ⟨"/", ss⟩ = ⟨"/", ss.dropLast⟩ := by
  unfold PurePosixPath.parent
  by_cases h : ss = []
  · subst h
    rfl
  · rw [if_neg (by simpa using h)]

theorem parentN_abs (n : Nat) (ss : List String) :
    PurePosixPath.parentN n ⟨"/", ss⟩ = ⟨"/", ss.take (ss.length - n)⟩ := by
  induction n with
  | zero =>
    show (⟨"/", ss⟩ : PurePosixPath) = ⟨"/", ss.take (ss.length - 0)⟩
    rw [Nat.sub_zero, List.take_length]
  | succ n ih =>
    show (PurePosixPath.parentN n ⟨"/", ss⟩).parent = _
    rw [ih, parent_abs]
    have : (ss.take (ss.length - n)).dropLast = ss.take (ss.length - (n + 1)) := by
      rw [List.dropLast_eq_take, List.length_take, List.take_take]
      congr 1
      omega
    rw [this]

theorem parse_root_empty (s : String) (h : s.data.head? ≠ some '/') :
    (PurePosixPath.parse s).root = "" := by
  unfold PurePosixPath.parse
  dsimp only
  split
  · next heq => exact absurd (by rw [heq]; rfl) h
  · next heq => exact absurd (by rw [heq]; rfl) h
  · next heq => exact absurd (by rw [heq]; rfl) h
  · rfl

theorem joinpath_rel (p : PurePosixPath) (s : String)
    (h : (PurePosixPath.parse s).root = "") :
    p.joinpath s = ⟨p.root, p.segs ++ (PurePosixPath.parse s).segs⟩ := by
  unfold PurePosixPath.joinpath
  rw [if_neg (by simp [h])]

theorem cleanUrl_dot (l : List Char) :
    cleanUrl ('.' :: l) = '.' :: l.filter (fun c => !isDeletedUrlChar c) := by
  unfold cleanUrl
  rw [List.dropWhile_cons, if_neg (by decide)]
  exact List.filter_cons_of_pos (by decide)

theorem getUrlRoot_none_dot (ref : String) (l : List Char)
    (hdata : ref.data = '.' :: l) : getUrlRoot ref = none := by
  refine getUrlRoot_eq_none_of_netloc ref (pyUrlsplit_netloc_empty ref
    ('.' :: l.filter (fun c => !isDeletedUrlChar c)) ?_ ?_ ?_)
  · rw [hdata]
    exact cleanUrl_dot l
  · exact splitScheme_not_alpha '.' _ (by decide)
  · apply splitNetloc_of_no_slash2
    intro h
    have h4 := congrArg (List.head? ·) h
    simp at h4

theorem matchProtoRel_dot (l : List Char) : matchProtoRel ('.' :: l) = false := by
  unfold matchProtoRel
  split
  · next heq => simp at heq
  · rfl

theorem matchRootRel_dot (l : List Char) : matchRootRel ('.' :: l) = false := by
  unfold matchRootRel
  split
  · next heq => simp at heq
  · rfl

/-! ## Claim C1 -/

set_option maxRecDepth 16384 in
/-- C1, counterexample: for the base `https://ex.com/a/b.html` the
reference `"../c.png"` resolves to `https://ex.com/a/c.png` — one strip
removes only the trailing segment `b.html` — not to the claimed
`https://ex.com/c.png`. -/
theorem C1_counterexample :
    (refProcess ⟨"https://ex.com/a/b.html", some "https://ex.com", false⟩
        (some "../c.png")).link = "https://ex.com/a/c.png" ∧
      ("https://ex.com/a/c.png" : String) ≠ "https://ex.com/c.png" := by
  exact ⟨by decide, by decide⟩

/-- C1 (amended): for a reference made of `n ≥ 1` leading `"../"` groups
followed by a suffix that contains no further occurrence of the leading
block, does not itself start with `"../"` or `'/'`, resolution strips
`n` trailing segments from the base resource's parsed path (saturating
at the root — never an error; the FIRST strip removes the base's final
segment, e.g. `b.html`, so `"../c.png"` keeps directory `a`) and joins
the suffix's segments onto what remains, anchored under `urlRoot`. -/
theorem C1_dotted_relative_parent_strip (r : RefCtx) (root ref suffix : String)
    (n : Nat) (segs : List String)
    (hroot : r.url_root = some root)
    (hn : 0 < n)
    (href : ref.data = ddChars n ++ suffix.data)
    (hsuf0 : ddCount suffix.data = 0)
    (hnosub : hasSub (ddChars n) suffix.data = false)
    (hshead : suffix.data.head? ≠ some '/')
    (hpath : PurePosixPath.parse (pyUrlparse r.path).path = ⟨"/", segs⟩) :
    refProcess r (some ref) =
      ⟨root ++ (PurePosixPath.mk "/"
        (segs.take (segs.length - n) ++ (PurePosixPath.parse suffix).segs)).toStr,
        ""⟩ := by
  obtain ⟨m, rfl⟩ : ∃ m, n = m + 1 := ⟨n - 1, by omega⟩
  have hdata : ref.data = '.' :: ('.' :: '/' :: (ddChars m ++ suffix.data)) := by
    rw [href]
    rfl
  have hne : ref ≠ "" := (string_ne_empty_iff ref).mpr (by rw [hdata]; simp)
  have hg : getUrlRoot ref = none := getUrlRoot_none_dot ref _ hdata
  have h1 : (getUrlRoot ref == r.url_root) = false := by
    rw [hg, hroot]
    rfl
  have hdd : ddCount ref.data = m + 1 := by
    rw [href, ddCount_ddChars_append, hsuf0]
  have hrel : relative_path r ref = root ++ (PurePosixPath.mk "/"
      (segs.take (segs.length - (m + 1)) ++
        (PurePosixPath.parse suffix).segs)).toStr := by
    unfold relative_path
    dsimp only
    rw [hdd]
    have hra : removeAll (ddChars (m + 1)) ref.data = suffix.data := by
      rw [href, removeAll_prepend _ _ (ddChars_ne_nil _ (by omega)),
        removeAll_of_no_sub _ _ hnosub]
    rw [hra, mk_data, hpath, parentN_abs,
      joinpath_rel _ _ (parse_root_empty _ hshead), hroot]
    rfl
  simp only [refProcess]
  rw [if_neg hne, if_neg (by rw [h1]; simp),
    if_neg (show ¬ ((r.enable_external_link_processing && matchProtoRel ref.data) = true) by
      rw [hdata, matchProtoRel_dot]; simp),
    if_neg (show ¬ (matchRootRel ref.data = true) by
      rw [hdata, matchRootRel_dot]; simp),
    if_pos (show 0 < ddCount ref.data by rw [hdd]; omega)]
  rw [hrel]

set_option maxRecDepth 16384 in
/-- Witness for C1: `"../../c.png"` against base
`https://ex.com/a/b.html` strips two segments and yields
`https://ex.com/c.png`. -/
theorem C1_dotted_relative_parent_strip_witness :
    ((⟨"https://ex.com/a/b.html", some "https://ex.com", false⟩ : RefCtx).url_root =
        some "https://ex.com") ∧
    (0 < 2) ∧
    ("../../c.png".data = ddChars 2 ++ "c.png".data) ∧
    (ddCount "c.png".data = 0) ∧
    (hasSub (ddChars 2) "c.png".data = false) ∧
    ("c.png".data.head? ≠ some '/') ∧
    (PurePosixPath.parse
        (pyUrlparse (RefCtx.path
          ⟨"https://ex.com/a/b.html", some "https://ex.com", false⟩)).path =
      ⟨"/", ["a", "b.html"]⟩) ∧
    refProcess ⟨"https://ex.com/a/b.html", some "https://ex.com", false⟩
        (some "../../c.png") =
      ⟨"https://ex.com" ++ (PurePosixPath.mk "/"
        ((["a", "b.html"].take (["a", "b.html"].length - 2)) ++
          (PurePosixPath.parse "c.png").segs)).toStr, ""⟩ := by
  refine ⟨rfl, by decide, by decide, by decide, by decide, by decide, by decide, ?_⟩
  exact C1_dotted_relative_parent_strip
    ⟨"https://ex.com/a/b.html", some "https://ex.com", false⟩ "https://ex.com"
    "../../c.png" "c.png" 2 ["a", "b.html"] rfl (by decide) (by decide)
    (by decide) (by decide) (by decide) (by decide)

end WebRes
